import Mathlib

/-!
Verification of the OAK Estimator synchronization core.

This file gives a shallow embedding, in Lean 4, of the change-detection
hashing, conflict-resolution merge, retry/backoff, server-first fetch,
single-flight upload queue and realtime snapshot filter implemented in
`firebase/sync-manager.js` and `firebase/firestore-service.js`, and proves
properties of that embedding.

Modelling conventions:
* JavaScript values appearing in project records are modelled by the
  inductive type `Value`; `Value.vNull` models both `null` and `undefined`
  (the two behave identically at every program point embedded here:
  both are falsy, both throw on property access, and the `|| 0` guards
  turn both into `0`).
* JavaScript objects are association lists with unique keys in insertion
  order; spread-update (`{...obj, k: v}`) is `aset`, rest-removal
  (`({k, ...rest}) => rest`) is `adel`.
* `new Date(x).getTime()` is modelled by an explicit parameter
  `getTime : Value → Option Int`, where `none` models a `NaN` result
  (an unparseable date) and `some n` an epoch-millisecond value.
* Code that can throw a JavaScript exception is embedded in
  `Except String`.
-/

mutual

/-- A JavaScript value as stored in a project record field.
`vNull` models both `null` and `undefined`. -/
inductive Value where
  | vNull : Value
  | vBool : Bool → Value
  | vNum : Int → Value
  | vStr : String → Value
  | vList : ValueList → Value
deriving DecidableEq

/-- A JavaScript array of values (element list of `Value.vList`). -/
inductive ValueList where
  | nil : ValueList
  | cons : Value → ValueList → ValueList
deriving DecidableEq

end

/-- Length of a JS array (`arr.length`). -/
def ValueList.length : ValueList → Nat
  | .nil => 0
  | .cons _ t => t.length + 1

/-- A JavaScript object: fields in insertion order, keys unique. -/
abbrev Record := List (String × Value)

/-- A collection of records (a JS array of project objects). -/
abbrev Coll := List Record

/-- Association-list lookup (models JS property read / `Map.get`):
the value at the first occurrence of the key. -/
def alookup {κ β : Type} [DecidableEq κ] : List (κ × β) → κ → Option β
  | [], _ => none
  | (k', v) :: t, k => if k' = k then some v else alookup t k

/-- Association-list update (models JS spread-overwrite `{...o, k: v}` and
`Map.set`): replaces the value at an existing key in place, otherwise
appends the binding at the end. -/
def aset {κ β : Type} [DecidableEq κ] : List (κ × β) → κ → β → List (κ × β)
  | [], k, v => [(k, v)]
  | (k', v') :: t, k, v => if k' = k then (k, v) :: t else (k', v') :: aset t k v

/-- Association-list removal (models rest-destructuring `({k, ...rest})`). -/
def adel {κ β : Type} [DecidableEq κ] (m : List (κ × β)) (k : κ) : List (κ × β) :=
  m.filter (fun p => p.1 ≠ k)

/-- Read a field of a record; `none` models `undefined`. -/
def getF (r : Record) (k : String) : Option Value := alookup r k

/-- JavaScript truthiness of a `Value`. -/
def truthy : Value → Bool
  | .vNull => false
  | .vBool b => b
  | .vNum n => n ≠ 0
  | .vStr s => s ≠ ""
  | .vList _ => true

/-- JavaScript truthiness of a possibly-`undefined` value. -/
def truthyO : Option Value → Bool
  | none => false
  | some v => truthy v

/-! ## Fingerprint: `calculateHash` (sync-manager.js, lines 74-90)

The hash is computed over `JSON.stringify(projects)`.  `JSON.stringify`
is a platform primitive; it is modelled here for the value shapes the
records hold (null, booleans, integers, ASCII strings, arrays, flat
objects), rendering `Value.vNull` the way JSON renders `null`. -/

/-- JSON escaping of one character (the escapes relevant to the
character set used here; other characters are emitted verbatim). -/
def escapeJsonChar (c : Char) : String :=
  if c = '"' then "\\\""
  else if c = '\\' then "\\\\"
  else if c = '\n' then "\\n"
  else if c = '\t' then "\\t"
  else if c = '\r' then "\\r"
  else String.singleton c

/-- JSON escaping of a string body. -/
def escapeJsonString (s : String) : String :=
  s.data.foldl (fun acc c => acc ++ escapeJsonChar c) ""

mutual

/-- `JSON.stringify` of a single value. -/
def jsonOfValue : Value → String
  | .vNull => "null"
  | .vBool b => if b then "true" else "false"
  | .vNum n => toString n
  | .vStr s => "\"" ++ escapeJsonString s ++ "\""
  | .vList l => "[" ++ jsonOfValues l ++ "]"

/-- Comma-separated `JSON.stringify` of array elements. -/
def jsonOfValues : ValueList → String
  | .nil => ""
  | .cons v .nil => jsonOfValue v
  | .cons v (.cons w t) => jsonOfValue v ++ "," ++ jsonOfValues (.cons w t)

end

/-- `JSON.stringify` of one object field. -/
def jsonOfField (f : String × Value) : String :=
  "\"" ++ escapeJsonString f.1 ++ "\":" ++ jsonOfValue f.2

/-- `JSON.stringify` of a record object. -/
def jsonOfRecord (r : Record) : String :=
  "\x7b" ++ String.intercalate "," (r.map jsonOfField) ++ "\x7d"

/-- `JSON.stringify` of the projects array. -/
def jsonOfColl (c : Coll) : String :=
  "[" ++ String.intercalate "," (c.map jsonOfRecord) ++ "]"

/-- One iteration of the hash loop:
`hash = ((hash << 5) - hash) + char; hash = hash & hash`.
Working modulo 2^32: `((h << 5) - h) + c ≡ 31*h + c (mod 2^32)`, and the
intermediate `<< 5` wrap-around only changes the value by multiples of
2^32, so the running hash is tracked as its unsigned 32-bit residue. -/
def hashStep (h : Nat) (c : Char) : Nat :=
  (31 * h + c.toNat) % 4294967296

/-- The hash loop over `str`, starting from `hash = 0`
(unsigned 32-bit residue of the JS signed 32-bit accumulator). -/
def hashString (s : String) : Nat :=
  s.data.foldl hashStep 0

/-- Reinterpret an unsigned 32-bit residue as the signed 32-bit integer
the JS code holds after `hash & hash`. -/
def toInt32 (n : Nat) : Int :=
  if n < 2147483648 then (n : Int) else (n : Int) - 4294967296

/-- Base-36 digit character (0-9 then a-z), as used by
`Number.prototype.toString(36)`. -/
def digit36 (n : Nat) : Char :=
  if n < 10 then Char.ofNat (48 + n) else Char.ofNat (87 + n)

/-- Most-significant-first base-36 digits of `n` (fuel-driven; `fuel ≥ n`
suffices since the argument shrinks by division by 36 each step). -/
def natToBase36Aux : Nat → Nat → List Char
  | 0, _ => []
  | fuel + 1, n => if n = 0 then [] else natToBase36Aux fuel (n / 36) ++ [digit36 (n % 36)]

/-- `n.toString(36)` for a natural number. -/
def natToBase36 (n : Nat) : String :=
  if n = 0 then "0" else ⟨natToBase36Aux (n + 1) n⟩

/-- `i.toString(36)` for a (signed) integer. -/
def intToBase36 : Int → String
  | .ofNat n => natToBase36 n
  | .negSucc m => "-" ++ natToBase36 (m + 1)

/-- `calculateHash(projects)` (sync-manager.js, lines 74-90): `'empty'`
for a null/undefined or empty array, otherwise the 32-bit string hash of
`JSON.stringify(projects)` rendered in base 36. -/
def calculateHash : Option Coll → String
  | none => "empty"
  | some [] => "empty"
  | some (r :: rs) => intToBase36 (toInt32 (hashString (jsonOfColl (r :: rs))))

/-! ## Merge Engine: `mergeProjects` (sync-manager.js, lines 158-246) -/

/-- The five conflict strategies of `CONFLICT_STRATEGY`. -/
inductive Strategy where
  | server_wins : Strategy
  | local_wins : Strategy
  | latest_wins : Strategy
  | merge : Strategy
  | manual : Strategy
deriving DecidableEq

/-- `project.id`; `none` models an absent `id` (JS `undefined`). -/
def idOf (r : Record) : Option Value := getF r "id"

/-- `{...r, source: s}` — the provenance tag written by the merge. -/
def tagSource (r : Record) (s : String) : Record :=
  aset r "source" (.vStr s)

/-- `new Date(r.updatedAt || 0).getTime()`.  `getTime` is the model of
the platform's date parser: `some n` is an epoch-millisecond result,
`none` models `NaN` (an unparseable date).  A missing or falsy
`updatedAt` is turned into `0` by the `|| 0` guard, and
`new Date(0).getTime()` is `0`. -/
def updTime (getTime : Value → Option Int) (r : Record) : Option Int :=
  match getF r "updatedAt" with
  | none => some 0
  | some v => if truthy v then getTime v else some 0

/-- JS `>` on two possibly-`NaN` numbers: any comparison with `NaN`
is false. -/
def jsGT : Option Int → Option Int → Bool
  | some a, some b => decide (a > b)
  | _, _ => false

/-- JS property read `v.length`: arrays and strings have a numeric
length, `null`/`undefined` throw a `TypeError`, other primitives yield
`undefined`. -/
def lenOf : Value → Except String (Option Int)
  | .vList l => .ok (some (l.length : Int))
  | .vStr s => .ok (some (s.length : Int))
  | .vNull => .error "TypeError: Cannot read properties of null (reading length)"
  | .vBool _ => .ok none
  | .vNum _ => .ok none

/-- JS `r.k.length`: reading `.length` off a missing field throws. -/
def fieldLen (r : Record) (k : String) : Except String (Option Int) :=
  match getF r k with
  | none => .error "TypeError: Cannot read properties of undefined (reading length)"
  | some v => lenOf v

/-- One iteration of the `Object.keys(localProject).forEach` loop inside
the MERGE strategy (sync-manager.js, lines 211-230), acting on the
accumulated `resolvedProject`. -/
def mergeFieldStep (getTime : Value → Option Int) (lp rp : Record)
    (resolved : Record) (f : String × Value) : Except String Record :=
  if f.1 = "updatedAt" then
    .ok (aset resolved "updatedAt"
      (if jsGT (updTime getTime lp) (updTime getTime rp)
       then (getF lp "updatedAt").getD .vNull
       else (getF rp "updatedAt").getD .vNull))
  else if f.1 = "lineItems" then
    match fieldLen lp "lineItems" with
    | .error e => .error e
    | .ok ll =>
      match fieldLen rp "lineItems" with
      | .error e => .error e
      | .ok rl =>
        if jsGT ll rl then
          .ok (aset resolved "lineItems" ((getF lp "lineItems").getD .vNull))
        else
          .ok resolved
  else
    if truthy ((getF lp f.1).getD .vNull) && !truthyO (getF rp f.1) then
      .ok (aset resolved f.1 ((getF lp f.1).getD .vNull))
    else
      .ok resolved

/-- The `forEach` of the MERGE-strategy field loop: run `mergeFieldStep`
over the field list, propagating a thrown exception. -/
def mergeFieldsFold (getTime : Value → Option Int) (lp rp : Record) :
    Record → List (String × Value) → Except String Record
  | resolved, [] => .ok resolved
  | resolved, f :: fs =>
    match mergeFieldStep getTime lp rp resolved f with
    | .error e => .error e
    | .ok r' => mergeFieldsFold getTime lp rp r' fs

/-- The MERGE-strategy field-level merge: start from
`resolvedProject = {...remoteProject}` and fold the field loop over the
local record's fields. -/
def mergeFields (getTime : Value → Option Int) (lp rp : Record) : Except String Record :=
  mergeFieldsFold getTime lp rp rp lp

/-- Conflict resolution for an id present in both collections
(sync-manager.js, lines 193-231).  Under `manual` (the only strategy
reaching this code with neither `latest_wins` nor `merge`),
`resolvedProject` is left `undefined`, so the subsequent
`{...resolvedProject, source: 'merged'}` spread contributes no fields:
this is modelled by the empty record. -/
def resolveConflict (getTime : Value → Option Int) (strategy : Strategy)
    (lp rp : Record) : Except String Record :=
  if strategy = .latest_wins then
    .ok (if jsGT (updTime getTime lp) (updTime getTime rp) then lp else rp)
  else if strategy = .merge then
    mergeFields getTime lp rp
  else
    .ok []

/-- The record value written to `projectMap` for local record `lp`,
given the map's current entry at `lp`'s id (lines 182-237). -/
def stepValue (getTime : Value → Option Int) (strategy : Strategy)
    (mv : Option Record) (lp : Record) : Except String Record :=
  match mv with
  | none => .ok (tagSource lp "local")
  | some rp =>
    match resolveConflict getTime strategy lp rp with
    | .error e => .error e
    | .ok resolved => .ok (tagSource resolved "merged")

/-- The `projectMap`: JS `Map` keyed by `project.id`, kept as an
insertion-ordered association list. -/
abbrev MapT := List (Option Value × Record)

/-- One iteration of the `localProjects.forEach` loop (lines 182-238). -/
def mergeStep (getTime : Value → Option Int) (strategy : Strategy)
    (m : MapT) (lp : Record) : Except String MapT :=
  match stepValue getTime strategy (alookup m (idOf lp)) lp with
  | .error e => .error e
  | .ok v => .ok (aset m (idOf lp) v)

/-- The `localProjects.forEach` loop itself (lines 182-238),
propagating a thrown exception. -/
def runLocalFold (getTime : Value → Option Int) (strategy : Strategy) :
    MapT → Coll → Except String MapT
  | m, [] => .ok m
  | m, lp :: t =>
    match mergeStep getTime strategy m lp with
    | .error e => .error e
    | .ok m' => runLocalFold getTime strategy m' t

/-- The `remoteProjects.forEach` loop (lines 174-179): seed the map with
remote records tagged `source: 'remote'`. -/
def buildRemoteMap (remoteProjects : Coll) : MapT :=
  remoteProjects.foldl (fun m p => aset m (idOf p) (tagSource p "remote")) []

/-- `({source, ...project}) => project` (line 241). -/
def stripSource (r : Record) : Record := adel r "source"

/-- `mergeProjects(localProjects, remoteProjects, strategy)`
(sync-manager.js, lines 158-246).  The result is in `Except` because the
MERGE strategy's field loop can throw a `TypeError` (reading `.length`
of `undefined`). -/
def mergeProjects (getTime : Value → Option Int)
    (localProjects remoteProjects : Coll) (strategy : Strategy) :
    Except String Coll :=
  if strategy = .server_wins then .ok remoteProjects
  else if strategy = .local_wins then .ok localProjects
  else
    match runLocalFold getTime strategy (buildRemoteMap remoteProjects) localProjects with
    | .error e => .error e
    | .ok m => .ok ((m.map Prod.snd).map stripSource)

/-! ## Retry/backoff: firestore-service (`part_001`, lines 18-113) -/

/-- A thrown Firestore error: `code` and `message` (an absent field is
the empty string, matching the `|| ''` guards in the source). -/
structure JsError where
  code : String
  message : String
deriving DecidableEq

/-- `RETRY_CONFIG` (part_001, lines 18-23). -/
structure RetryConfig where
  maxRetries : Nat
  initialDelay : Nat
  maxDelay : Nat
  backoffMultiplier : Nat
deriving DecidableEq

/-- The retry configuration constants. -/
def RETRY_CONFIG : RetryConfig :=
  { maxRetries := 3, initialDelay := 1000, maxDelay := 10000, backoffMultiplier := 2 }

/-- `getBackoffDelay(attempt)` (part_001, lines 47-50). -/
def getBackoffDelay (attempt : Nat) : Nat :=
  min (RETRY_CONFIG.initialDelay * RETRY_CONFIG.backoffMultiplier ^ attempt) RETRY_CONFIG.maxDelay

/-- Does the needle start the haystack? (helper for substring search). -/
def charsStartsWith : (needle hay : List Char) → Bool
  | [], _ => true
  | _ :: _, [] => false
  | a :: as, b :: bs => a == b && charsStartsWith as bs

/-- Does the haystack contain the needle as a contiguous substring?
(models `String.prototype.includes`). -/
def charsContains (hay needle : List Char) : Bool :=
  match hay with
  | [] => needle.isEmpty
  | _ :: t => charsStartsWith needle hay || charsContains t needle

/-- `s.includes(sub)`. -/
def strIncludes (s sub : String) : Bool :=
  charsContains s.data sub.data

/-- `s.toLowerCase()` (character-wise lowering). -/
def jsToLower (s : String) : String :=
  ⟨s.data.map Char.toLower⟩

/-- `isOfflineError(error)` (part_001, lines 57-71). -/
def isOfflineError : Option JsError → Bool
  | none => false
  | some e =>
      e.code == "unavailable" ||
      e.code == "offline" ||
      e.code == "failed-precondition" ||
      strIncludes (jsToLower e.message) "offline" ||
      strIncludes (jsToLower e.message) "network" ||
      strIncludes (jsToLower e.message) "unavailable"

/-- The non-retryable error codes (part_001, line 98). -/
def isPermissionCode (e : JsError) : Bool :=
  e.code == "permission-denied" || e.code == "unauthenticated"

/-- Observable trace of one `executeWithRetry` run: how many times the
operation was invoked, the backoff delays slept between attempts, and
the returned/thrown outcome. -/
structure RetryTrace (α : Type) where
  calls : Nat
  delays : List Nat
  result : Except JsError α

/-- The `for (attempt = 0; attempt <= maxRetries; ...)` loop of
`executeWithRetry` (part_001, lines 80-113).  `op i` is the outcome of
the `i`-th invocation of the operation.  `fuel` counts the iterations
still allowed; when it reaches zero the loop has exhausted all attempts
and the saved `lastError` is thrown. -/
def retryGo {α : Type} (op : Nat → Except JsError α) :
    (fuel attempt : Nat) → List Nat → Nat → Option JsError → RetryTrace α
  | 0, _, ds, c, last => ⟨c, ds, .error (last.getD { code := "", message := "null" })⟩
  | fuel + 1, attempt, ds, c, _last =>
    let ds' := if attempt > 0 then ds ++ [getBackoffDelay (attempt - 1)] else ds
    match op attempt with
    | .ok a => ⟨c + 1, ds', .ok a⟩
    | .error e =>
      if isPermissionCode e then ⟨c + 1, ds', .error e⟩
      else retryGo op fuel (attempt + 1) ds' (c + 1) (some e)

/-- `executeWithRetry(operation)` (part_001, lines 80-113). -/
def executeWithRetry {α : Type} (op : Nat → Except JsError α) : RetryTrace α :=
  retryGo op (RETRY_CONFIG.maxRetries + 1) 0 [] 0 none

/-! ## Server-first fetch: `fetchDocument` (part_001, lines 122-188) -/

/-- The `FirestoreResult` shape returned by the data service. -/
structure FirestoreResult (α : Type) where
  success : Bool
  data : Option α
  error : Option String
  fromCache : Bool
deriving DecidableEq

/-- `error.message || fallback`. -/
def errMessageOr (e : JsError) (fallback : String) : String :=
  if e.message = "" then fallback else e.message

/-- `fetchDocument` (part_001, lines 122-188).  `serverGet i` is the
outcome of the `i`-th `docRef.get({source:'server'})` call (retried via
`executeWithRetry`); `cacheGet` the outcome of the single
`docRef.get({source:'cache'})` call.  A snapshot is `some d` when
`snapshot.exists`, `none` when the document does not exist. -/
def fetchDocument {α : Type} (serverGet : Nat → Except JsError (Option α))
    (cacheGet : Except JsError (Option α)) : FirestoreResult α :=
  match (executeWithRetry serverGet).result with
  | .ok (some d) => ⟨true, some d, none, false⟩
  | .ok none => ⟨true, none, none, false⟩
  | .error serverError =>
    let cacheHit : Option α :=
      if isOfflineError (some serverError) then
        match cacheGet with
        | .ok (some d) => some d
        | _ => none
      else none
    match cacheHit with
    | some d => ⟨true, some d, none, true⟩
    | none => ⟨false, none, some (errMessageOr serverError "Failed to fetch document"), false⟩

/-! ## Single-flight upload queue: `syncToCloud` (sync-manager.js, lines 254-328)

The JS host runs `syncToCloud` on a single-threaded event loop: each
call runs synchronously up to the `await saveUserProjects(...)`
suspension point, the continuation (including the `finally` block) runs
when the save settles, and a `setTimeout` callback runs when its timer
fires.  The machine below embeds exactly these three atomic steps for an
authenticated session, logging the externally visible actions. -/

/-- Externally visible actions of the upload path. -/
inductive UploadAction where
  | saveStart : Nat → UploadAction
  | saveEnd : Nat → Bool → UploadAction
  | resolveOk : Nat → UploadAction
  | resolveErr : Nat → UploadAction
deriving DecidableEq

/-- Event-loop events: a caller invokes `syncToCloud` (request `i`), the
in-flight `saveUserProjects` settles (with success flag), or a queued
`setTimeout(nextSync, 100)` timer fires. -/
inductive UploadEvent where
  | arrive : Nat → UploadEvent
  | saveComplete : Bool → UploadEvent
  | timerFire : UploadEvent
deriving DecidableEq

/-- The portion of `syncState` the upload path touches, plus the pending
timers and the action log. -/
structure UploadState where
  syncInProgress : Bool
  syncQueue : List Nat
  active : Option Nat
  timers : List Nat
  log : List UploadAction
deriving DecidableEq

/-- The idle initial state (engine start). -/
def initialUploadState : UploadState :=
  { syncInProgress := false, syncQueue := [], active := none, timers := [], log := [] }

/-- The synchronous prologue of `syncToCloud(projects)` for request `i`
(lines 265-282): if a sync is in progress the request is pushed onto
`syncState.syncQueue`; otherwise `syncInProgress` is set and the remote
save begins. -/
def beginUpload (s : UploadState) (i : Nat) : UploadState :=
  if s.syncInProgress then
    { s with syncQueue := s.syncQueue ++ [i] }
  else
    { s with syncInProgress := true, active := some i, log := s.log ++ [.saveStart i] }

/-- One atomic event-loop step.  `none` models an event that cannot
occur in the given state (a save completing with none in flight, or a
timer firing with none scheduled). -/
def uploadStep (s : UploadState) : UploadEvent → Option UploadState
  | .arrive i => some (beginUpload s i)
  | .saveComplete ok =>
    match s.active with
    | none => none
    | some i =>
      let s1 : UploadState :=
        { s with
          active := none
          syncInProgress := false
          log := s.log ++ [.saveEnd i ok, if ok then .resolveOk i else .resolveErr i] }
      match s1.syncQueue with
      | [] => some s1
      | j :: rest => some { s1 with syncQueue := rest, timers := s1.timers ++ [j] }
  | .timerFire =>
    match s.timers with
    | [] => none
    | j :: rest => some (beginUpload { s with timers := rest } j)

/-- Run a sequence of event-loop events. -/
def uploadRun (s : UploadState) : List UploadEvent → Option UploadState
  | [] => some s
  | e :: es => (uploadStep s e).bind (fun s' => uploadRun s' es)

/-- Scan an action log checking saves never overlap: `b` says whether a
save is currently open; `none` flags an overlap (a save starting while
one is open, or ending with none open). -/
def scanOpen : List UploadAction → Bool → Option Bool
  | [], b => some b
  | .saveStart _ :: t, false => scanOpen t true
  | .saveStart _ :: _, true => none
  | .saveEnd _ _ :: t, true => scanOpen t false
  | .saveEnd _ _ :: _, false => none
  | .resolveOk _ :: t, b => scanOpen t b
  | .resolveErr _ :: t, b => scanOpen t b

/-! ## Realtime filter: `startRealtimeSync` (sync-manager.js, lines 406-460)
and the upload success path (lines 284-301, 319-320). -/

/-- The scalar sync state read and written by the snapshot handler and
the upload success path. -/
structure SyncScalarState where
  lastSyncTime : Option Int
  lastSyncedHash : Option String
  syncInProgress : Bool
deriving DecidableEq

/-- Side effects the snapshot handler can perform. -/
inductive SnapshotEffect where
  | saveLocal : Coll → SnapshotEffect
  | onUpdate : Coll → SnapshotEffect
deriving DecidableEq

/-- The state change performed by the success branch of `syncToCloud`
(lines 284-301) together with its unconditional `finally` (line 320):
record the collection's hash as `lastSyncedHash`, stamp `lastSyncTime`,
clear `syncInProgress`. -/
def afterUploadSuccess (st : SyncScalarState) (projects : Coll) (now : Int) :
    SyncScalarState :=
  { st with
    lastSyncTime := some now
    lastSyncedHash := some (calculateHash (some projects))
    syncInProgress := false }

/-- The subscription snapshot handler installed by `startRealtimeSync`
(lines 420-452): discard while a sync is in progress; discard when the
incoming hash equals `lastSyncedHash`; otherwise persist locally, update
the sync state and forward to the caller's `onUpdate`. -/
def handleRealtimeSnapshot (st : SyncScalarState) (projects : Coll) (now : Int) :
    SyncScalarState × List SnapshotEffect :=
  if st.syncInProgress then (st, [])
  else
    let newHash := calculateHash (some projects)
    if some newHash = st.lastSyncedHash then (st, [])
    else
      ({ st with lastSyncedHash := some newHash, lastSyncTime := some now },
       [.saveLocal projects, .onUpdate projects])

/-! ## Association-list lemmas -/

theorem alookup_aset_self {κ β : Type} [DecidableEq κ] (m : List (κ × β)) (k : κ) (v : β) :
    alookup (aset m k v) k = some v := by
  induction m with
  | nil => simp [aset, alookup]
  | cons p t ih =>
    obtain ⟨k', v'⟩ := p
    by_cases h : k' = k
    · simp [aset, h, alookup]
    · simp [aset, h, alookup, ih]

theorem alookup_aset_ne {κ β : Type} [DecidableEq κ] (m : List (κ × β)) (k k' : κ) (v : β)
    (h : k' ≠ k) : alookup (aset m k v) k' = alookup m k' := by
  induction m with
  | nil => simp [aset, alookup, Ne.symm h]
  | cons p t ih =>
    obtain ⟨k₀, v₀⟩ := p
    by_cases hk : k₀ = k
    · subst hk
      simp [aset, alookup, Ne.symm h]
    · by_cases hk' : k₀ = k'
      · simp [aset, hk, alookup, hk', h]
      · simp [aset, hk, alookup, hk', ih]

theorem alookup_adel_self {κ β : Type} [DecidableEq κ] (m : List (κ × β)) (k : κ) :
    alookup (adel m k) k = none := by
  induction m with
  | nil => simp [adel, alookup]
  | cons p t ih =>
    obtain ⟨k₀, v₀⟩ := p
    by_cases hk : k₀ = k
    · simpa [adel, hk] using ih
    · simpa [adel, hk, alookup] using ih

theorem alookup_adel_ne {κ β : Type} [DecidableEq κ] (m : List (κ × β)) (k k' : κ)
    (h : k' ≠ k) : alookup (adel m k) k' = alookup m k' := by
  induction m with
  | nil => simp [adel, alookup]
  | cons p t ih =>
    obtain ⟨k₀, v₀⟩ := p
    by_cases hk : k₀ = k
    · subst hk
      simpa [adel, alookup, Ne.symm h] using ih
    · by_cases hk' : k₀ = k'
      · simp [adel, hk, alookup, hk', h]
      · simpa [adel, hk, alookup, hk'] using ih

theorem adel_aset_self {κ β : Type} [DecidableEq κ] (m : List (κ × β)) (k : κ) (v : β) :
    adel (aset m k v) k = adel m k := by
  induction m with
  | nil => simp [aset, adel]
  | cons p t ih =>
    obtain ⟨k₀, v₀⟩ := p
    by_cases hk : k₀ = k
    · simp [aset, hk, adel]
    · simpa [aset, hk, adel] using ih

theorem adel_of_alookup_none {κ β : Type} [DecidableEq κ] (m : List (κ × β)) (k : κ)
    (h : alookup m k = none) : adel m k = m := by
  induction m with
  | nil => simp [adel]
  | cons p t ih =>
    obtain ⟨k₀, v₀⟩ := p
    by_cases hk : k₀ = k
    · simp [alookup, hk] at h
    · simp [alookup, hk] at h
      simpa [adel, hk] using ih h

theorem mem_aset {κ β : Type} [DecidableEq κ] (m : List (κ × β)) (k : κ) (v : β)
    (q : κ × β) (hq : q ∈ aset m k v) : q = (k, v) ∨ q ∈ m := by
  induction m with
  | nil => simpa [aset] using hq
  | cons p t ih =>
    obtain ⟨k₀, v₀⟩ := p
    by_cases hk : k₀ = k
    · simp [aset, hk] at hq
      rcases hq with h | h
      · exact Or.inl (by simp [h])
      · exact Or.inr (List.mem_cons_of_mem _ h)
    · simp [aset, hk] at hq
      rcases hq with h | h
      · exact Or.inr (by simp [h])
      · rcases ih h with h' | h'
        · exact Or.inl h'
        · exact Or.inr (List.mem_cons_of_mem _ h')

theorem aset_map_fst_of_mem {κ β : Type} [DecidableEq κ] (m : List (κ × β)) (k : κ) (v : β)
    (h : (alookup m k).isSome) : (aset m k v).map Prod.fst = m.map Prod.fst := by
  induction m with
  | nil => simp [alookup] at h
  | cons p t ih =>
    obtain ⟨k₀, v₀⟩ := p
    by_cases hk : k₀ = k
    · simp [aset, hk]
    · simp [alookup, hk] at h
      simp [aset, hk, ih h]

theorem aset_map_fst_of_not_mem {κ β : Type} [DecidableEq κ] (m : List (κ × β)) (k : κ) (v : β)
    (h : alookup m k = none) : (aset m k v).map Prod.fst = m.map Prod.fst ++ [k] := by
  induction m with
  | nil => simp [aset]
  | cons p t ih =>
    obtain ⟨k₀, v₀⟩ := p
    by_cases hk : k₀ = k
    · simp [alookup, hk] at h
    · simp [alookup, hk] at h
      simp [aset, hk, ih h]

theorem alookup_none_iff_not_mem_fst {κ β : Type} [DecidableEq κ] (m : List (κ × β)) (k : κ) :
    alookup m k = none ↔ k ∉ m.map Prod.fst := by
  induction m with
  | nil => simp [alookup]
  | cons p t ih =>
    obtain ⟨k₀, v₀⟩ := p
    by_cases hk : k₀ = k
    · simp [alookup, hk]
    · simp [alookup, hk, ih, Ne.symm hk]

theorem nodup_fst_aset {κ β : Type} [DecidableEq κ] (m : List (κ × β)) (k : κ) (v : β)
    (h : (m.map Prod.fst).Nodup) : ((aset m k v).map Prod.fst).Nodup := by
  rcases ho : alookup m k with _ | w
  · rw [aset_map_fst_of_not_mem m k v ho]
    have hk : k ∉ m.map Prod.fst := (alookup_none_iff_not_mem_fst m k).mp ho
    refine List.Nodup.append h (List.nodup_singleton k) ?_
    intro a ha hb
    simp at hb
    subst hb
    exact hk ha
  · rw [aset_map_fst_of_mem m k v (by simp [ho])]
    exact h

theorem alookup_mem {κ β : Type} [DecidableEq κ] (m : List (κ × β)) (k : κ) (v : β)
    (h : alookup m k = some v) : (k, v) ∈ m := by
  induction m with
  | nil => simp [alookup] at h
  | cons p t ih =>
    obtain ⟨k₀, v₀⟩ := p
    by_cases hk : k₀ = k
    · subst hk
      simp [alookup] at h
      simp [h]
    · simp [alookup, hk] at h
      exact List.mem_cons_of_mem _ (ih h)

/-! ## Record-level corollaries -/

theorem getF_tagSource_ne (r : Record) (s k : String) (h : k ≠ "source") :
    getF (tagSource r s) k = getF r k :=
  alookup_aset_ne r "source" k (.vStr s) h

theorem idOf_tagSource (r : Record) (s : String) : idOf (tagSource r s) = idOf r :=
  getF_tagSource_ne r s "id" (by decide)

theorem updTime_tagSource (gt : Value → Option Int) (r : Record) (s : String) :
    updTime gt (tagSource r s) = updTime gt r := by
  unfold updTime
  rw [getF_tagSource_ne r s "updatedAt" (by decide)]

theorem stripSource_tagSource (r : Record) (s : String) :
    stripSource (tagSource r s) = stripSource r :=
  adel_aset_self r "source" (.vStr s)

theorem stripSource_of_no_source (r : Record) (h : getF r "source" = none) :
    stripSource r = r :=
  adel_of_alookup_none r "source" h

theorem getF_stripSource_ne (r : Record) (k : String) (h : k ≠ "source") :
    getF (stripSource r) k = getF r k :=
  alookup_adel_ne r "source" k h

theorem idOf_stripSource (r : Record) : idOf (stripSource r) = idOf r :=
  getF_stripSource_ne r "id" (by decide)

theorem getF_stripSource_source (r : Record) : getF (stripSource r) "source" = none :=
  alookup_adel_self r "source"

/-! ## Lemmas about the remote seeding fold -/

theorem foldRemote_lookup_not_mem (rs : Coll) : ∀ (m : MapT) (k : Option Value),
    (∀ p ∈ rs, idOf p ≠ k) →
    alookup (rs.foldl (fun m p => aset m (idOf p) (tagSource p "remote")) m) k = alookup m k := by
  induction rs with
  | nil => intro m k _; rfl
  | cons q t ih =>
    intro m k h
    simp only [List.foldl_cons]
    rw [ih _ k (fun p hp => h p (List.mem_cons_of_mem _ hp))]
    exact alookup_aset_ne m (idOf q) k _ (Ne.symm (h q (List.mem_cons_self q t)))

theorem buildRemoteMap_lookup_not_mem (rs : Coll) (k : Option Value)
    (h : ∀ p ∈ rs, idOf p ≠ k) : alookup (buildRemoteMap rs) k = none := by
  unfold buildRemoteMap
  rw [foldRemote_lookup_not_mem rs [] k h]
  rfl

theorem foldRemote_lookup_mem (rs : Coll) : ∀ (m : MapT) (p : Record),
    (rs.map idOf).Nodup → p ∈ rs →
    alookup (rs.foldl (fun m p => aset m (idOf p) (tagSource p "remote")) m) (idOf p) =
      some (tagSource p "remote") := by
  induction rs with
  | nil => intro m p _ hp; cases hp
  | cons q t ih =>
    intro m p hnd hp
    simp only [List.map_cons, List.nodup_cons] at hnd
    simp only [List.foldl_cons]
    rcases List.mem_cons.mp hp with rfl | hp'
    · have hni : ∀ r ∈ t, idOf r ≠ idOf p := by
        intro r hr he
        exact hnd.1 (he ▸ List.mem_map_of_mem idOf hr)
      rw [foldRemote_lookup_not_mem t _ _ hni]
      exact alookup_aset_self m (idOf p) _
    · exact ih _ p hnd.2 hp'

theorem buildRemoteMap_lookup_mem (rs : Coll) (p : Record)
    (hnd : (rs.map idOf).Nodup) (hp : p ∈ rs) :
    alookup (buildRemoteMap rs) (idOf p) = some (tagSource p "remote") :=
  foldRemote_lookup_mem rs [] p hnd hp

/-! ## Lemmas about the local merge fold -/

theorem mergeStep_ok_lookup_ne (gt : Value → Option Int) (st : Strategy) (m : MapT)
    (lp : Record) (m' : MapT) (k : Option Value)
    (hrun : mergeStep gt st m lp = .ok m') (hk : k ≠ idOf lp) :
    alookup m' k = alookup m k := by
  unfold mergeStep at hrun
  cases hsv : stepValue gt st (alookup m (idOf lp)) lp with
  | error e => rw [hsv] at hrun; cases hrun
  | ok v =>
    rw [hsv] at hrun
    cases hrun
    exact alookup_aset_ne m (idOf lp) k v hk

theorem runLocalFold_lookup_not_mem (gt : Value → Option Int) (st : Strategy) (ls : Coll) :
    ∀ (m m' : MapT) (k : Option Value),
    (∀ lp ∈ ls, idOf lp ≠ k) →
    runLocalFold gt st m ls = .ok m' →
    alookup m' k = alookup m k := by
  induction ls with
  | nil =>
    intro m m' k _ hrun
    cases hrun
    rfl
  | cons q t ih =>
    intro m m' k h hrun
    unfold runLocalFold at hrun
    cases hstep : mergeStep gt st m q with
    | error e => rw [hstep] at hrun; cases hrun
    | ok m₁ =>
      rw [hstep] at hrun
      rw [ih m₁ m' k (fun lp hlp => h lp (List.mem_cons_of_mem _ hlp)) hrun]
      exact mergeStep_ok_lookup_ne gt st m q m₁ k hstep
        (Ne.symm (h q (List.mem_cons_self q t)))

theorem runLocalFold_lookup_mem (gt : Value → Option Int) (st : Strategy) (ls : Coll) :
    ∀ (m m' : MapT) (lp : Record),
    (ls.map idOf).Nodup → lp ∈ ls →
    runLocalFold gt st m ls = .ok m' →
    ∃ v, stepValue gt st (alookup m (idOf lp)) lp = .ok v ∧
      alookup m' (idOf lp) = some v := by
  induction ls with
  | nil => intro m m' lp _ hp; cases hp
  | cons q t ih =>
    intro m m' lp hnd hp hrun
    simp only [List.map_cons, List.nodup_cons] at hnd
    unfold runLocalFold at hrun
    cases hstep : mergeStep gt st m q with
    | error e => rw [hstep] at hrun; cases hrun
    | ok m₁ =>
      rw [hstep] at hrun
      rcases List.mem_cons.mp hp with rfl | hp'
      · have hsv : ∃ v, stepValue gt st (alookup m (idOf lp)) lp = .ok v ∧
            m₁ = aset m (idOf lp) v := by
          unfold mergeStep at hstep
          cases hsv' : stepValue gt st (alookup m (idOf lp)) lp with
          | error e => rw [hsv'] at hstep; cases hstep
          | ok v =>
            rw [hsv'] at hstep
            cases hstep
            exact ⟨v, rfl, rfl⟩
        rcases hsv with ⟨v, hv, rfl⟩
        refine ⟨v, hv, ?_⟩
        have hni : ∀ r ∈ t, idOf r ≠ idOf lp := by
          intro r hr he
          exact hnd.1 (he ▸ List.mem_map_of_mem idOf hr)
        rw [runLocalFold_lookup_not_mem gt st t _ m' (idOf lp) hni hrun]
        exact alookup_aset_self m (idOf lp) v
      · have hne : idOf q ≠ idOf lp := by
          intro he
          exact hnd.1 (he ▸ List.mem_map_of_mem idOf hp')
        have := ih m₁ m' lp hnd.2 hp' hrun
        rwa [mergeStep_ok_lookup_ne gt st m q m₁ (idOf lp) hstep (Ne.symm hne)] at this

/-! ## The map invariant: every entry is keyed by its record's id -/

/-- Invariant of `projectMap`: keys are pairwise distinct and each entry's
record carries the entry's key as its `id`. -/
def mapInv (m : MapT) : Prop :=
  (m.map Prod.fst).Nodup ∧ ∀ q ∈ m, idOf q.2 = q.1

theorem mapInv_nil : mapInv [] :=
  ⟨List.nodup_nil, by intro q hq; cases hq⟩

theorem mapInv_aset (m : MapT) (k : Option Value) (v : Record)
    (hm : mapInv m) (hv : idOf v = k) : mapInv (aset m k v) := by
  constructor
  · exact nodup_fst_aset m k v hm.1
  · intro q hq
    rcases mem_aset m k v q hq with rfl | hq'
    · exact hv
    · exact hm.2 q hq'

theorem mapInv_buildRemoteMap (rs : Coll) : mapInv (buildRemoteMap rs) := by
  unfold buildRemoteMap
  suffices h : ∀ m, mapInv m →
      mapInv (rs.foldl (fun m p => aset m (idOf p) (tagSource p "remote")) m) from
    h [] mapInv_nil
  induction rs with
  | nil => intro m hm; exact hm
  | cons q t ih =>
    intro m hm
    simp only [List.foldl_cons]
    exact ih _ (mapInv_aset m (idOf q) _ hm (idOf_tagSource q "remote"))

/-! ## The MERGE field loop preserves the id field -/

theorem mergeFieldStep_getF_id (gt : Value → Option Int) (lp rp resolved : Record)
    (f : String × Value) (r' : Record)
    (hid : getF rp "id" = getF lp "id")
    (hstep : mergeFieldStep gt lp rp resolved f = .ok r') :
    getF r' "id" = getF resolved "id" := by
  unfold mergeFieldStep at hstep
  by_cases h1 : f.1 = "updatedAt"
  · rw [if_pos h1] at hstep
    cases hstep
    exact alookup_aset_ne resolved "updatedAt" "id" _ (by decide)
  · rw [if_neg h1] at hstep
    by_cases h2 : f.1 = "lineItems"
    · rw [if_pos h2] at hstep
      split at hstep
      · cases hstep
      · split at hstep
        · cases hstep
        · split at hstep
          · cases hstep
            exact alookup_aset_ne resolved "lineItems" "id" _ (by decide)
          · cases hstep
            rfl
    · rw [if_neg h2] at hstep
      by_cases h3 : f.1 = "id"
      · have hcond : (truthy ((getF lp f.1).getD .vNull) && !truthyO (getF rp f.1)) = false := by
          rw [h3, hid]
          cases hv : getF lp "id" with
          | none => simp [truthy, truthyO]
          | some v => cases hb : truthy v <;> simp [truthyO, hb]
        rw [hcond] at hstep
        simp only [Bool.false_eq_true, if_false] at hstep
        cases hstep
        rfl
      · by_cases hc : (truthy ((getF lp f.1).getD .vNull) && !truthyO (getF rp f.1)) = true
        · rw [if_pos hc] at hstep
          cases hstep
          exact alookup_aset_ne resolved f.1 "id" _ (Ne.symm h3)
        · rw [if_neg hc] at hstep
          cases hstep
          rfl

theorem mergeFieldsFold_getF_id (gt : Value → Option Int) (lp rp : Record)
    (hid : getF rp "id" = getF lp "id") (fs : List (String × Value)) :
    ∀ (resolved res : Record),
    mergeFieldsFold gt lp rp resolved fs = .ok res →
    getF res "id" = getF resolved "id" := by
  induction fs with
  | nil =>
    intro resolved res h
    cases h
    rfl
  | cons f t ih =>
    intro resolved res h
    unfold mergeFieldsFold at h
    cases hstep : mergeFieldStep gt lp rp resolved f with
    | error e => rw [hstep] at h; cases h
    | ok r' =>
      rw [hstep] at h
      rw [ih r' res h]
      exact mergeFieldStep_getF_id gt lp rp resolved f r' hid hstep

theorem mergeFields_getF_id (gt : Value → Option Int) (lp rp res : Record)
    (hid : getF rp "id" = getF lp "id")
    (h : mergeFields gt lp rp = .ok res) :
    getF res "id" = getF rp "id" :=
  mergeFieldsFold_getF_id gt lp rp hid lp rp res h

/-! ## The local fold preserves the map invariant -/

theorem stepValue_idOf (gt : Value → Option Int) (st : Strategy)
    (mv : Option Record) (lp v : Record)
    (hlm : st = .latest_wins ∨ st = .merge)
    (hmv : ∀ rp, mv = some rp → idOf rp = idOf lp)
    (hv : stepValue gt st mv lp = .ok v) :
    idOf v = idOf lp := by
  cases mv with
  | none =>
    unfold stepValue at hv
    cases hv
    exact idOf_tagSource lp "local"
  | some rp =>
    unfold stepValue at hv
    dsimp only at hv
    cases hrc : resolveConflict gt st lp rp with
    | error e => rw [hrc] at hv; cases hv
    | ok resolved =>
      rw [hrc] at hv
      cases hv
      rw [idOf_tagSource]
      unfold resolveConflict at hrc
      rcases hlm with h1 | h2
      · rw [if_pos h1] at hrc
        cases hrc
        by_cases hgt : jsGT (updTime gt lp) (updTime gt rp) = true
        · rw [if_pos hgt]
        · rw [if_neg hgt]
          exact hmv rp rfl
      · have hne : st ≠ Strategy.latest_wins := by rw [h2]; intro hx; cases hx
        rw [if_neg hne, if_pos h2] at hrc
        have := mergeFields_getF_id gt lp rp resolved (hmv rp rfl) hrc
        unfold idOf
        rw [this]
        exact hmv rp rfl

theorem mergeStep_mapInv (gt : Value → Option Int) (st : Strategy) (m : MapT)
    (lp : Record) (m' : MapT)
    (hlm : st = .latest_wins ∨ st = .merge)
    (hm : mapInv m)
    (hrun : mergeStep gt st m lp = .ok m') : mapInv m' := by
  unfold mergeStep at hrun
  cases hsv : stepValue gt st (alookup m (idOf lp)) lp with
  | error e => rw [hsv] at hrun; cases hrun
  | ok v =>
    rw [hsv] at hrun
    cases hrun
    refine mapInv_aset m _ v hm ?_
    refine stepValue_idOf gt st _ lp v hlm ?_ hsv
    intro rp hrp
    exact hm.2 (idOf lp, rp) (alookup_mem m (idOf lp) rp hrp)

theorem runLocalFold_mapInv (gt : Value → Option Int) (st : Strategy) (ls : Coll) :
    ∀ (m m' : MapT), (st = .latest_wins ∨ st = .merge) → mapInv m →
    runLocalFold gt st m ls = .ok m' → mapInv m' := by
  induction ls with
  | nil =>
    intro m m' _ hm hrun
    cases hrun
    exact hm
  | cons q t ih =>
    intro m m' hlm hm hrun
    unfold runLocalFold at hrun
    cases hstep : mergeStep gt st m q with
    | error e => rw [hstep] at hrun; cases hrun
    | ok m₁ =>
      rw [hstep] at hrun
      exact ih m₁ m' hlm (mergeStep_mapInv gt st m q m₁ hlm hm hstep) hrun

/-! ## Uniqueness of ids in the merge output (claim C1) -/

/-- The id-uniqueness invariant of a collection: no two records carry
the same `id` (an absent id counts as the shared JS value `undefined`). -/
def uniqueIds (c : Coll) : Prop := (c.map idOf).Nodup

theorem mergeProjects_fold_unique (gt : Value → Option Int) (l r out : Coll)
    (st : Strategy) (hlm : st = .latest_wins ∨ st = .merge)
    (hrun : mergeProjects gt l r st = .ok out) : uniqueIds out := by
  have h1 : st ≠ .server_wins := by rcases hlm with rfl | rfl <;> intro h <;> cases h
  have h2 : st ≠ .local_wins := by rcases hlm with rfl | rfl <;> intro h <;> cases h
  unfold mergeProjects at hrun
  rw [if_neg h1, if_neg h2] at hrun
  cases hfold : runLocalFold gt st (buildRemoteMap r) l with
  | error e => rw [hfold] at hrun; cases hrun
  | ok m =>
    rw [hfold] at hrun
    cases hrun
    have hinv : mapInv m :=
      runLocalFold_mapInv gt st l (buildRemoteMap r) m hlm (mapInv_buildRemoteMap r) hfold
    unfold uniqueIds
    rw [List.map_map, List.map_map]
    have hmaps : m.map ((idOf ∘ stripSource) ∘ Prod.snd) = m.map Prod.fst := by
      apply List.map_congr_left
      intro q hq
      simp only [Function.comp_apply]
      rw [idOf_stripSource, hinv.2 q hq]
    rw [hmaps]
    exact hinv.1

/-- C1 (counterexample): the claim "for every conflict strategy the
output of mergeProjects never contains two records with the same id" is
false as stated.  Under the `manual` strategy, two ids present in both
collections each produce the record `{source:'merged'}` (spread of the
never-assigned `resolvedProject`), which the final cleanup strips to the
empty record `{}`; the output then holds two records whose `id` is the
same JS value `undefined`. -/
theorem C1_counterexample :
    mergeProjects (fun _ => none)
      [[("id", Value.vNum 1)], [("id", Value.vNum 2)]]
      [[("id", Value.vNum 1)], [("id", Value.vNum 2)]]
      Strategy.manual = .ok [[], []]
    ∧ ¬ uniqueIds [[], []] := by
  constructor
  · rfl
  · unfold uniqueIds
    decide

/-- C1 (amended): for every pair of collections each with unique ids and
every conflict strategy other than `manual`, a successful mergeProjects
output never contains two records with the same id.  (Under `manual`,
records at conflicting ids are reduced to the field-less record, so
several conflicting ids yield several records sharing the `undefined`
id, as `C1_counterexample` shows.) -/
theorem C1_unique_ids_amended (gt : Value → Option Int) (l r out : Coll)
    (st : Strategy) (hst : st ≠ Strategy.manual)
    (hl : uniqueIds l) (hr : uniqueIds r)
    (hrun : mergeProjects gt l r st = .ok out) : uniqueIds out := by
  cases st with
  | server_wins =>
    unfold mergeProjects at hrun
    simp only [if_pos rfl] at hrun
    cases hrun
    exact hr
  | local_wins =>
    unfold mergeProjects at hrun
    rw [if_neg (by intro h; cases h), if_pos rfl] at hrun
    cases hrun
    exact hl
  | latest_wins => exact mergeProjects_fold_unique gt l r out _ (Or.inl rfl) hrun
  | merge => exact mergeProjects_fold_unique gt l r out _ (Or.inr rfl) hrun
  | manual => exact absurd rfl hst

/-- Witness for `C1_unique_ids_amended` at a concrete input. -/
theorem C1_witness : uniqueIds [[("id", Value.vNum 2)], [("id", Value.vNum 1)]] :=
  C1_unique_ids_amended (fun _ => none)
    [[("id", Value.vNum 1)]] [[("id", Value.vNum 2)]]
    [[("id", Value.vNum 2)], [("id", Value.vNum 1)]]
    Strategy.latest_wins (by decide) (by unfold uniqueIds; decide)
    (by unfold uniqueIds; decide) rfl

/-! ## The latest_wins strategy (claim C2) -/

theorem stepValue_latest (gt : Value → Option Int) (lp rp : Record) :
    stepValue gt Strategy.latest_wins (some rp) lp =
      .ok (tagSource
        (if jsGT (updTime gt lp) (updTime gt rp) = true then lp else rp) "merged") := by
  rfl

/-- The spec's reading of the `latest_wins` timestamp: "compared as epoch
milliseconds with a missing or unparseable timestamp treated as epoch 0".
(Modelled from the claim's own words, for comparison against the code.) -/
def specLatestTime (getTime : Value → Option Int) (r : Record) : Int :=
  match getF r "updatedAt" with
  | none => 0
  | some v => if truthy v then (getTime v).getD 0 else 0

/-- A date parser behaving like `new Date(...).getTime()` on the two
timestamps of the C2 counterexample: `"2024-01-02"` parses to epoch
milliseconds 1704153600000, `"garbage"` parses to `NaN` (`none`), and
numbers denote themselves. -/
def exDate : Value → Option Int
  | .vStr "2024-01-02" => some 1704153600000
  | .vNum n => some n
  | _ => none

/-- C2 (counterexample): the claim says an unparseable `updatedAt` is
"treated as epoch 0", under which the local record here (a valid
timestamp, strictly greater than 0) would be strictly newer than the
remote one (unparseable) and would be kept.  The code instead computes
`new Date("garbage").getTime() = NaN`, every `>` comparison with `NaN`
is false, and the remote record is kept. -/
theorem C2_counterexample :
    mergeProjects exDate
      [[("id", Value.vNum 1), ("updatedAt", Value.vStr "2024-01-02")]]
      [[("id", Value.vNum 1), ("updatedAt", Value.vStr "garbage")]]
      Strategy.latest_wins
      = .ok [[("id", Value.vNum 1), ("updatedAt", Value.vStr "garbage")]]
    ∧ specLatestTime exDate [("id", Value.vNum 1), ("updatedAt", Value.vStr "2024-01-02")] >
        specLatestTime exDate [("id", Value.vNum 1), ("updatedAt", Value.vStr "garbage")]
    ∧ [("id", Value.vNum 1), ("updatedAt", Value.vStr "garbage")] ≠
        ([("id", Value.vNum 1), ("updatedAt", Value.vStr "2024-01-02")] : Record) := by
  refine ⟨rfl, by decide, by decide⟩

/-- C2 (amended): under `latest_wins`, a successful merge of collections
with unique ids and no `source` fields contains: every remote record
whose id has no local counterpart, verbatim; every local record whose id
has no remote counterpart, verbatim; and for ids present in both, the
local record exactly when its `updatedAt` epoch value is strictly
greater than the remote's under JS `NaN` semantics (a missing or falsy
timestamp is epoch 0; if either timestamp is unparseable the comparison
is false), the remote record otherwise — in particular ties and `NaN`
comparisons keep the remote record. -/
theorem C2_latest_wins_characterization (gt : Value → Option Int) (l r out : Coll)
    (hl : uniqueIds l) (hr : uniqueIds r)
    (hsl : ∀ p ∈ l, getF p "source" = none)
    (hsr : ∀ p ∈ r, getF p "source" = none)
    (hrun : mergeProjects gt l r Strategy.latest_wins = .ok out) :
    (∀ p ∈ r, (∀ q ∈ l, idOf q ≠ idOf p) → p ∈ out)
    ∧ (∀ q ∈ l, (∀ p ∈ r, idOf p ≠ idOf q) → q ∈ out)
    ∧ (∀ q ∈ l, ∀ p ∈ r, idOf q = idOf p →
        (if jsGT (updTime gt q) (updTime gt p) = true then q else p) ∈ out) := by
  unfold mergeProjects at hrun
  rw [if_neg (by intro h; cases h), if_neg (by intro h; cases h)] at hrun
  cases hfold : runLocalFold gt Strategy.latest_wins (buildRemoteMap r) l with
  | error e => rw [hfold] at hrun; cases hrun
  | ok m =>
    rw [hfold] at hrun
    cases hrun
    have hmem : ∀ (k : Option Value) (v : Record),
        alookup m k = some v → stripSource v ∈ (m.map Prod.snd).map stripSource := by
      intro k v hv
      exact List.mem_map_of_mem stripSource
        (List.mem_map_of_mem Prod.snd (alookup_mem m k v hv))
    refine ⟨?_, ?_, ?_⟩
    · intro p hp hnl
      have h0 : alookup (buildRemoteMap r) (idOf p) = some (tagSource p "remote") :=
        buildRemoteMap_lookup_mem r p hr hp
      have h1 : alookup m (idOf p) = some (tagSource p "remote") := by
        rw [runLocalFold_lookup_not_mem gt Strategy.latest_wins l
          (buildRemoteMap r) m (idOf p) hnl hfold]
        exact h0
      have := hmem (idOf p) (tagSource p "remote") h1
      rwa [stripSource_tagSource, stripSource_of_no_source p (hsr p hp)] at this
    · intro q hq hnr
      rcases runLocalFold_lookup_mem gt Strategy.latest_wins l
          (buildRemoteMap r) m q hl hq hfold with ⟨v, hv, hv'⟩
      have h0 : alookup (buildRemoteMap r) (idOf q) = none :=
        buildRemoteMap_lookup_not_mem r (idOf q) hnr
      rw [h0] at hv
      unfold stepValue at hv
      cases hv
      have := hmem (idOf q) (tagSource q "local") hv'
      rwa [stripSource_tagSource, stripSource_of_no_source q (hsl q hq)] at this
    · intro q hq p hp hid
      rcases runLocalFold_lookup_mem gt Strategy.latest_wins l
          (buildRemoteMap r) m q hl hq hfold with ⟨v, hv, hv'⟩
      have h0 : alookup (buildRemoteMap r) (idOf q) = some (tagSource p "remote") := by
        rw [hid]
        exact buildRemoteMap_lookup_mem r p hr hp
      rw [h0, stepValue_latest, updTime_tagSource] at hv
      cases hv
      have hout := hmem (idOf q) _ hv'
      by_cases hgt : jsGT (updTime gt q) (updTime gt p) = true
      · rw [if_pos hgt] at hout ⊢
        rwa [stripSource_tagSource, stripSource_of_no_source q (hsl q hq)] at hout
      · rw [if_neg hgt] at hout ⊢
        rwa [stripSource_tagSource, stripSource_tagSource,
          stripSource_of_no_source p (hsr p hp)] at hout

/-- Witness for `C2_latest_wins_characterization` at a concrete input:
a remote-only record, a local-only record and a conflicting id whose tie
is kept from the remote collection. -/
theorem C2_witness :
    ([("id", Value.vNum 9), ("updatedAt", Value.vNum 5)] : Record) ∈
      ([[("id", Value.vNum 9), ("updatedAt", Value.vNum 5)],
        [("id", Value.vNum 7)]] : Coll) := by
  have h := C2_latest_wins_characterization exDate
    [[("id", Value.vNum 9), ("updatedAt", Value.vNum 5)]]
    [[("id", Value.vNum 9), ("updatedAt", Value.vNum 5)], [("id", Value.vNum 7)]]
    [[("id", Value.vNum 9), ("updatedAt", Value.vNum 5)], [("id", Value.vNum 7)]]
    (by unfold uniqueIds; decide) (by unfold uniqueIds; decide)
    (by decide) (by decide) rfl
  exact h.2.2 [("id", Value.vNum 9), ("updatedAt", Value.vNum 5)] (by decide)
    [("id", Value.vNum 9), ("updatedAt", Value.vNum 5)] (by decide) rfl

/-! ## The `source` provenance tag (claim C10) -/

/-- C10: for every strategy other than `server_wins`/`local_wins`, no
record of a successful mergeProjects output carries a `source` field —
the internal provenance tag is stripped from every output record by the
final cleanup, and a `source` field present on an input record is
thereby silently removed.  Under `server_wins` and `local_wins` the
input collection is returned unchanged, `source` fields included. -/
theorem C10_source_stripped (gt : Value → Option Int) (l r : Coll) :
    (∀ (st : Strategy), st ≠ Strategy.server_wins → st ≠ Strategy.local_wins →
      ∀ (out : Coll), mergeProjects gt l r st = .ok out →
      ∀ p ∈ out, getF p "source" = none)
    ∧ mergeProjects gt l r Strategy.server_wins = .ok r
    ∧ mergeProjects gt l r Strategy.local_wins = .ok l := by
  refine ⟨?_, rfl, rfl⟩
  intro st h1 h2 out hrun p hp
  unfold mergeProjects at hrun
  rw [if_neg h1, if_neg h2] at hrun
  cases hfold : runLocalFold gt st (buildRemoteMap r) l with
  | error e => rw [hfold] at hrun; cases hrun
  | ok m =>
    rw [hfold] at hrun
    cases hrun
    rcases List.mem_map.mp hp with ⟨v, _, rfl⟩
    exact getF_stripSource_source v

/-- Witness for `C10_source_stripped`: a local record carrying its own
`source` field comes out of a `manual` merge with that field removed. -/
theorem C10_witness : getF [("id", Value.vNum 1)] "source" = none :=
  (C10_source_stripped (fun _ => none)
      [[("id", Value.vNum 1), ("source", Value.vStr "x")]] []).1
    Strategy.manual (by decide) (by decide)
    [[("id", Value.vNum 1)]] rfl
    [("id", Value.vNum 1)] (by decide)

/-! ## Totality of the merge (claim C4) -/

/-- C4: the claim states mergeProjects is total and never fails "for all
input records including those missing the updatedAt field or the
lineItems field".  Evaluating the embedded code at a conflicting id
under the MERGE strategy where the local record has `lineItems` and the
remote record lacks it: the field loop evaluates
`remoteProject.lineItems.length` on `undefined` and throws. -/
theorem C4_merge_throws :
    mergeProjects (fun _ => none)
      [[("id", Value.vNum 1), ("lineItems", Value.vList .nil)]]
      [[("id", Value.vNum 1)]]
      Strategy.merge
      = .error "TypeError: Cannot read properties of undefined (reading length)" := rfl

/-! ## The `manual` strategy (claim C5) -/

/-- C5: the claim states that under `manual` both versions of a
conflicting record are surfaced.  Evaluating the embedded code: for an
id present in both collections, `resolvedProject` is never assigned, the
map entry becomes `{source:'merged'}`, and the final cleanup strips it
to the empty record — the conflict is silently resolved into a single
empty record, and both versions are lost. -/
theorem C5_manual_conflict_empty :
    mergeProjects (fun _ => none)
      [[("id", Value.vNum 1), ("name", Value.vStr "A")]]
      [[("id", Value.vNum 1), ("name", Value.vStr "B")]]
      Strategy.manual
      = .ok [[]] := rfl

/-! ## Fingerprint determinism and the 'empty' sentinel (claim C9) -/

/-- C9 (counterexample): the claim says the reserved sentinel `'empty'`
is distinct from the hash of any non-empty collection.  But `"empty"` is
itself a five-digit base-36 numeral (value 24574534), and the non-empty
collection `[{"a":"aeybyzu"}]` hashes to exactly that 32-bit value, so
its fingerprint is the string `"empty"`. -/
theorem C9_counterexample :
    calculateHash (some [[("a", Value.vStr "aeybyzu")]]) = "empty"
    ∧ ([[("a", Value.vStr "aeybyzu")]] : Coll) ≠ [] := by
  exact ⟨rfl, by decide⟩

/-- C9 (amended): calculateHash is deterministic and pure, and maps the
absent and the empty collection to the sentinel `'empty'`; the sentinel
is however not distinct from every non-empty collection's hash
(`C9_counterexample`), so equality of fingerprints does not imply both
collections are empty. -/
theorem C9_hash_deterministic_empty :
    (∀ c : Option Coll, calculateHash c = calculateHash c)
    ∧ calculateHash none = "empty"
    ∧ calculateHash (some []) = "empty" :=
  ⟨fun _ => rfl, rfl, rfl⟩

/-! ## Retry exhaustion and permission short-circuit (claim C6) -/

/-- C6: an operation that always fails with a network-classified error
(offline-classified, and not carrying one of the two permission codes)
is attempted exactly `maxRetries + 1` times, sleeping the exponentially
doubling backoff delays `min(initialDelay * 2^i, maxDelay)` between
attempts, and the error is returned; an operation always failing with a
permission-classified error is attempted exactly once and the error
propagates immediately. -/
theorem C6_retry_exhaustion (e : JsError)
    (hnet : isOfflineError (some e) = true)
    (hperm : isPermissionCode e = false) :
    (∀ op : Nat → Except JsError Unit, (∀ i, op i = .error e) →
      (executeWithRetry op).calls = RETRY_CONFIG.maxRetries + 1
      ∧ (executeWithRetry op).result = .error e
      ∧ (executeWithRetry op).delays =
          [getBackoffDelay 0, getBackoffDelay 1, getBackoffDelay 2])
    ∧ (∀ i, getBackoffDelay i =
        min (RETRY_CONFIG.initialDelay * RETRY_CONFIG.backoffMultiplier ^ i) RETRY_CONFIG.maxDelay)
    ∧ (∀ (e' : JsError) (op : Nat → Except JsError Unit),
        isPermissionCode e' = true → (∀ i, op i = .error e') →
        (executeWithRetry op).calls = 1 ∧ (executeWithRetry op).result = .error e') := by
  refine ⟨?_, fun i => rfl, ?_⟩
  · intro op hop
    have h : executeWithRetry op =
        ⟨4, [getBackoffDelay 0, getBackoffDelay 1, getBackoffDelay 2], .error e⟩ := by
      unfold executeWithRetry RETRY_CONFIG
      simp [retryGo, hop, hperm]
    rw [h]
    exact ⟨rfl, rfl, rfl⟩
  · intro e' op hp hop
    have h : executeWithRetry op = ⟨1, [], .error e'⟩ := by
      unfold executeWithRetry RETRY_CONFIG
      simp [retryGo, hop, hp]
    rw [h]
    exact ⟨rfl, rfl⟩

/-- Witness for `C6_retry_exhaustion` at a concrete error and operation. -/
theorem C6_witness :
    (executeWithRetry (fun _ =>
        (.error { code := "unavailable", message := "network down" } : Except JsError Unit))).calls
      = RETRY_CONFIG.maxRetries + 1 :=
  ((C6_retry_exhaustion { code := "unavailable", message := "network down" }
      (by decide) (by decide)).1 _ (fun _ => rfl)).1

/-! ## Server-first fetch with cache fallback (claim C7) -/

/-- C7: `fetchDocument` attempts the (retried) server read first and
returns its data with `fromCache = false` on success; if the server read
fails with an offline/unavailable-classified error, it falls back to the
client-side cache read, returning a successful cache hit with
`fromCache = true`; if the cache read fails or finds no document, the
original server error's message is surfaced as the failure result. -/
theorem C7_fetch_fallback {α : Type} (serverGet : Nat → Except JsError (Option α))
    (cacheGet : Except JsError (Option α)) :
    (∀ d : Option α, (executeWithRetry serverGet).result = .ok d →
      fetchDocument serverGet cacheGet = ⟨true, d, none, false⟩)
    ∧ (∀ (e : JsError) (d : α), (executeWithRetry serverGet).result = .error e →
        isOfflineError (some e) = true → cacheGet = .ok (some d) →
        fetchDocument serverGet cacheGet = ⟨true, some d, none, true⟩)
    ∧ (∀ e : JsError, (executeWithRetry serverGet).result = .error e →
        isOfflineError (some e) = true →
        (cacheGet = .ok none ∨ ∃ ce, cacheGet = .error ce) →
        fetchDocument serverGet cacheGet =
          ⟨false, none, some (errMessageOr e "Failed to fetch document"), false⟩) := by
  refine ⟨?_, ?_, ?_⟩
  · intro d h
    unfold fetchDocument
    rw [h]
    cases d <;> rfl
  · intro e d h hoff hc
    unfold fetchDocument
    rw [h]
    simp [hoff, hc]
  · intro e h hoff hc
    unfold fetchDocument
    rw [h]
    rcases hc with hc | ⟨ce, hc⟩ <;> simp [hoff, hc]

/-- Witness for `C7_fetch_fallback` at a concrete offline failure with a
cache hit. -/
theorem C7_witness :
    fetchDocument
      (fun _ => (.error { code := "unavailable", message := "" } : Except JsError (Option Nat)))
      (.ok (some 42)) = ⟨true, some 42, none, true⟩ :=
  (C7_fetch_fallback _ _).2.1 { code := "unavailable", message := "" } 42 rfl (by decide) rfl

/-! ## Self-echo suppression (claim C8) -/

/-- C8: after a successful upload of collection `c` (which records `c`'s
fingerprint as `lastSyncedHash` and clears `syncInProgress`), a realtime
snapshot whose fingerprint equals that hash leaves the sync state
unchanged and performs no local write and no `onUpdate` callback; and
any snapshot arriving while `syncInProgress` is set is likewise
discarded without effect. -/
theorem C8_self_echo_suppression (st : SyncScalarState) (c p : Coll) (t t' : Int)
    (hfp : calculateHash (some p) = calculateHash (some c)) :
    handleRealtimeSnapshot (afterUploadSuccess st c t) p t'
      = (afterUploadSuccess st c t, [])
    ∧ (∀ st' : SyncScalarState, st'.syncInProgress = true →
        handleRealtimeSnapshot st' p t' = (st', [])) := by
  constructor
  · unfold handleRealtimeSnapshot afterUploadSuccess
    simp [hfp]
  · intro st' h
    unfold handleRealtimeSnapshot
    rw [if_pos h]

/-- Witness for `C8_self_echo_suppression` at a concrete state and
collection (the snapshot echoes the just-uploaded collection). -/
theorem C8_witness :
    handleRealtimeSnapshot
      (afterUploadSuccess ⟨none, none, false⟩ [[("id", Value.vNum 1)]] 5)
      [[("id", Value.vNum 1)]] 6
    = (afterUploadSuccess ⟨none, none, false⟩ [[("id", Value.vNum 1)]] 5, []) :=
  (C8_self_echo_suppression ⟨none, none, false⟩
    [[("id", Value.vNum 1)]] [[("id", Value.vNum 1)]] 5 6 rfl).1

/-! ## Single-flight uploads (claim C3) -/

theorem scanOpen_append (l₁ l₂ : List UploadAction) (b : Bool) :
    scanOpen (l₁ ++ l₂) b = (scanOpen l₁ b).bind (fun b' => scanOpen l₂ b') := by
  induction l₁ generalizing b with
  | nil => rfl
  | cons e t ih =>
    cases e with
    | saveStart i => cases b <;> simp [scanOpen, ih]
    | saveEnd i ok => cases b <;> simp [scanOpen, ih]
    | resolveOk i => simp [scanOpen, ih]
    | resolveErr i => simp [scanOpen, ih]

/-- Invariant tying the log to the machine state: the flag mirrors
whether a save is in flight, and the log scans cleanly to exactly that
openness state. -/
def uploadInv (s : UploadState) : Prop :=
  s.syncInProgress = s.active.isSome ∧ scanOpen s.log false = some s.active.isSome

theorem uploadInv_initial : uploadInv initialUploadState := ⟨rfl, rfl⟩

theorem uploadInv_beginUpload (s : UploadState) (i : Nat) (h : uploadInv s) :
    uploadInv (beginUpload s i) := by
  unfold beginUpload
  by_cases hf : s.syncInProgress = true
  · rw [if_pos hf]
    exact h
  · rw [if_neg hf]
    have hb : s.syncInProgress = false := by
      cases hsp : s.syncInProgress
      · rfl
      · exact absurd hsp hf
    have hact : s.active.isSome = false := by
      rw [← h.1]
      exact hb
    constructor
    · simp
    · show scanOpen (s.log ++ [.saveStart i]) false = some true
      rw [scanOpen_append, h.2, hact]
      rfl

theorem uploadInv_step (s s' : UploadState) (ev : UploadEvent)
    (h : uploadInv s) (hstep : uploadStep s ev = some s') : uploadInv s' := by
  cases ev with
  | arrive i =>
    unfold uploadStep at hstep
    cases hstep
    exact uploadInv_beginUpload s i h
  | saveComplete ok =>
    unfold uploadStep at hstep
    cases hact : s.active with
    | none => rw [hact] at hstep; cases hstep
    | some i =>
      rw [hact] at hstep
      have hscan : scanOpen s.log false = some true := by
        have := h.2
        rw [hact] at this
        exact this
      have hlog : scanOpen (s.log ++ [UploadAction.saveEnd i ok,
          if ok then UploadAction.resolveOk i else UploadAction.resolveErr i]) false
          = some false := by
        rw [scanOpen_append, hscan]
        cases ok <;> rfl
      dsimp only at hstep
      cases hq : s.syncQueue with
      | nil =>
        rw [hq] at hstep
        cases hstep
        exact ⟨rfl, hlog⟩
      | cons j rest =>
        rw [hq] at hstep
        cases hstep
        exact ⟨rfl, hlog⟩
  | timerFire =>
    unfold uploadStep at hstep
    cases ht : s.timers with
    | nil => rw [ht] at hstep; cases hstep
    | cons j rest =>
      rw [ht] at hstep
      cases hstep
      refine uploadInv_beginUpload _ j ?_
      exact h

theorem uploadInv_run (es : List UploadEvent) :
    ∀ (s s' : UploadState), uploadInv s → uploadRun s es = some s' → uploadInv s' := by
  induction es with
  | nil =>
    intro s s' h hrun
    cases hrun
    exact h
  | cons e t ih =>
    intro s s' h hrun
    unfold uploadRun at hrun
    cases hstep : uploadStep s e with
    | none => rw [hstep] at hrun; cases hrun
    | some s₁ =>
      rw [hstep] at hrun
      exact ih s₁ s' (uploadInv_step s s₁ e h hstep) hrun

/-- C3: uploads are single-flight.  In the event-loop model of
`syncToCloud`: (i) a second upload request arriving while the first save
is in flight is appended to the pending queue and starts no save;
(ii) running the two-upload scenario to completion produces exactly two
save calls, sequentially (the first save ends, and its caller is
resolved, before the second begins), in FIFO order, with both callers
receiving a completion; (iii) in every reachable state of the machine,
the action log scans cleanly — no save ever starts while another is
still in flight. -/
theorem C3_single_flight :
    (∃ s₁, uploadRun initialUploadState [.arrive 1, .arrive 2] = some s₁
      ∧ s₁.syncQueue = [2] ∧ s₁.log = [.saveStart 1])
    ∧ (∃ s₂, uploadRun initialUploadState
        [.arrive 1, .arrive 2, .saveComplete true, .timerFire, .saveComplete true] = some s₂
      ∧ s₂.log = [.saveStart 1, .saveEnd 1 true, .resolveOk 1,
          .saveStart 2, .saveEnd 2 true, .resolveOk 2]
      ∧ s₂.syncQueue = [] ∧ s₂.timers = [])
    ∧ (∀ (es : List UploadEvent) (s : UploadState),
        uploadRun initialUploadState es = some s →
        (scanOpen s.log false).isSome = true) := by
  refine ⟨⟨_, rfl, rfl, rfl⟩, ⟨_, rfl, rfl, rfl, rfl⟩, ?_⟩
  intro es s hrun
  have h := uploadInv_run es initialUploadState s uploadInv_initial hrun
  rw [h.2]
  rfl

/-- Witness for the universally quantified part of `C3_single_flight`
at the concrete two-upload trace. -/
theorem C3_witness :
    (scanOpen [UploadAction.saveStart 1, UploadAction.saveEnd 1 true,
      UploadAction.resolveOk 1, UploadAction.saveStart 2, UploadAction.saveEnd 2 true,
      UploadAction.resolveOk 2] false).isSome = true :=
  C3_single_flight.2.2
    [.arrive 1, .arrive 2, .saveComplete true, .timerFire, .saveComplete true] _ rfl
